import Mathlib

/-!
Verification of the MagicBind argument binder (magic_bind.py).

A shallow embedding of the repository's argument-binding utility:

* `merge_args_better` — the Argument Binder, translated line by line from
  `merge_args_better(clble, prio_args, prio_kwargs, add_args, add_kwargs)`.
* `MagicBind` — the Forwarding Proxy (`__init__`, `__getattribute__`,
  `__call__`).

Python dictionaries are modelled as association lists `List (String × V)`
in insertion order (a Python `dict` has unique keys; the model does not
force that, and no theorem below needs it).  Python values are an
arbitrary type `V`.

Mutation is modelled by explicit state passing.  The source copies
`prio_args` (`list(deepcopy(prio_args))`), `prio_kwargs`
(`deepcopy(prio_kwargs)`) and `add_args` (`list(add_args)`) into local
names and pops only the copies, so the caller's containers for those three
are untouched and the model does not thread them.  `add_kwargs` is *not*
copied: `add_kwargs.pop(argname)` mutates the dictionary the caller passed
in, so the model returns the post-call state of that dictionary
(`MergeResult.add_kwargs_out`).
-/

set_option autoImplicit false

namespace MagicBindModel

variable {V : Type}

/-- Remove the binding of key `k` from an association list
(Python `d.pop(k)` after a successful `k in d` test removes that key). -/
def popKey (k : String) : List (String × V) → List (String × V) :=
  List.eraseP (fun kv => kv.1 == k)

/-- The data `merge_args_better` extracts from its callable argument:
`getargspec(clble)` — the declared parameter names, whether a `*args`
catch-all is declared (`getargspec(clble)[1]`, unused by the code) and
whether a `**kwargs` catch-all is declared (`getargspec(clble)[2]`) —
together with the `isinstance(clble, Func)` test that decides
`begin_index`. -/
structure ArgSpec where
  args : List String
  varargs : Bool
  keywords : Bool
  isFunc : Bool

/-- The slice `getargspec(clble)[0][begin_index:]` with
`begin_index = 0 if isinstance(clble, Func) else 1`: the declared
parameter names minus the receiver for a bound method. -/
def ArgSpec.walkedNames (spec : ArgSpec) : List String :=
  spec.args.drop (if spec.isFunc then 0 else 1)

/-- The mutable local state of the `for argname in ...` loop of
`merge_args_better`: the growing `ok_args` plus the current contents of
the four argument containers the loop pops from. -/
structure LoopState (V : Type) where
  ok_args : List V
  prio_args : List V
  prio_kwargs : List (String × V)
  add_args : List V
  add_kwargs : List (String × V)

/-- One iteration of the loop body of `merge_args_better`:

```python
if argname in prio_kwargs:
    ok_args.append(prio_kwargs.pop(argname))
elif argname in add_kwargs:
    ok_args.append(add_kwargs.pop(argname))
elif prio_args:
    ok_args.append(prio_args.pop(0))
elif add_args:
    ok_args.append(add_args.pop(0))
```
-/
def bindStep (st : LoopState V) (argname : String) : LoopState V :=
  match st.prio_kwargs.lookup argname with
  | some v =>
    { st with ok_args := st.ok_args ++ [v],
              prio_kwargs := popKey argname st.prio_kwargs }
  | none =>
  match st.add_kwargs.lookup argname with
  | some v =>
    { st with ok_args := st.ok_args ++ [v],
              add_kwargs := popKey argname st.add_kwargs }
  | none =>
  match st.prio_args with
  | v :: rest => { st with ok_args := st.ok_args ++ [v], prio_args := rest }
  | [] =>
  match st.add_args with
  | v :: rest => { st with ok_args := st.ok_args ++ [v], add_args := rest }
  | [] => st

/-- What `merge_args_better` produces: the return value
`(ok_args, ok_kwargs)` plus the post-call state of the caller's
`add_kwargs` dictionary, which the function pops from in place (it is the
one container the source does not copy). -/
structure MergeResult (V : Type) where
  ok_args : List V
  ok_kwargs : List (String × V)
  add_kwargs_out : List (String × V)

/-- The binder `merge_args_better(clble, prio_args, prio_kwargs, add_args, add_kwargs)`:
walk the declared non-receiver parameter names with `bindStep`, then
`ok_args.extend(chain(prio_args, add_args))`, and
`ok_kwargs.update(add_kwargs)` (with `ok_kwargs` previously empty) exactly
when `getargspec(clble)[2]` is truthy. -/
def merge_args_better (spec : ArgSpec) (prio_args : List V)
    (prio_kwargs : List (String × V)) (add_args : List V)
    (add_kwargs : List (String × V)) : MergeResult V :=
  let st := spec.walkedNames.foldl bindStep
    ⟨[], prio_args, prio_kwargs, add_args, add_kwargs⟩
  { ok_args := st.ok_args ++ st.prio_args ++ st.add_args,
    ok_kwargs := if spec.keywords then st.add_kwargs else [],
    add_kwargs_out := st.add_kwargs }

/-- The outcome of the spec-side resolution walk: the resolved values in
walk order, and the final states of the four working pools the spec names
(working copy of the named overrides, working copy of the caller's named
args, the overrides' positional surplus, the caller's positionals). -/
structure SpecResolution (V : Type) where
  resolved : List V
  overrides : List (String × V)
  named : List (String × V)
  ovSurplus : List V
  positional : List V

/-- Written from the spec's words (§4.1 step 2), for comparison with
`merge_args_better`: "Walk the declared (non-skipped) parameter names in
order.  For each name, resolve its value using this priority: (1) present
in `overrides` → take and remove it from a working copy of overrides;
(2) else present in `named_args` → take and remove it from a working copy
of named args; (3) else next unconsumed value from `overrides`'s own
positional surplus → consume it; (4) else next unconsumed value from
`positional_args` → consume it; (5) else leave unresolved." -/
def specPriorityResolve :
    List String → List (String × V) → List (String × V) → List V → List V →
      SpecResolution V
  | [], ov, named, surplus, pos => ⟨[], ov, named, surplus, pos⟩
  | n :: ns, ov, named, surplus, pos =>
    match ov.lookup n with
    | some v =>
      let r := specPriorityResolve ns (popKey n ov) named surplus pos
      { r with resolved := v :: r.resolved }
    | none =>
    match named.lookup n with
    | some v =>
      let r := specPriorityResolve ns ov (popKey n named) surplus pos
      { r with resolved := v :: r.resolved }
    | none =>
    match surplus with
    | v :: rest =>
      let r := specPriorityResolve ns ov named rest pos
      { r with resolved := v :: r.resolved }
    | [] =>
    match pos with
    | v :: rest =>
      let r := specPriorityResolve ns ov named surplus rest
      { r with resolved := v :: r.resolved }
    | [] => specPriorityResolve ns ov named surplus pos

/-! ## The Forwarding Proxy (`MagicBind`) -/

/-- The Python exceptions the model distinguishes. -/
inductive PyErr
  | attributeError (name : String)
  | typeError (msg : String)
deriving DecidableEq, Repr

/-- A Python callable as `merge_args_better` and `__call__` see it: the
`getargspec`/`isinstance` data packed in `ArgSpec`, and its behaviour when
invoked with positional and named arguments (`Except` carries the
exception the invocation may raise). -/
structure PyCallable (V : Type) where
  spec : ArgSpec
  run : List V → List (String × V) → Except PyErr V

/-- An attribute value, classified the way lines 94–97 of the source
classify `original_attribute`: a `Meth`/`Func` instance, some other
callable object (in which case the proxy stores its bound `__call__`), or
a non-callable plain value. -/
inductive PyAttr (V : Type)
  | value (v : V)
  | func (c : PyCallable V)
  | callObj (c : PyCallable V)

/-- A target object: its attribute table, i.e. what
`getattr(original_obj, item)` finds.  A target that defines its own call
operator exposes it at the name `"__call__"` like any other attribute. -/
structure PyObj (V : Type) where
  attrs : List (String × PyAttr V)

/-- The proxy's state: the three fields set by `__init__` (`_obj`,
`_kwargs`, `_args`), the `_clble` slot written by `__getattribute__`
(absent until the first access to a callable attribute), and `own`, the
proxy's remaining own attributes — whatever
`super().__getattribute__(item)` would find on the proxy beyond the
modelled fields (e.g. class-level attributes). -/
structure MagicBind (V : Type) where
  obj : PyObj V
  ovwArgs : List V
  ovwKwargs : List (String × V)
  clble : Option (PyCallable V)
  own : List (String × PyAttr V)

/-- The constructor `MagicBind.__init__(obj, *args, **kwargs)`: store the target and the
overrides; `_clble` is not yet set. -/
def mkMagicBind (obj : PyObj V) (args : List V)
    (kwargs : List (String × V)) : MagicBind V :=
  { obj := obj, ovwArgs := args, ovwKwargs := kwargs,
    clble := none, own := [] }

/-- What `__getattribute__` returns: either the attribute value unchanged,
or `callable_method` — the proxy's own bound `__call__`. -/
inductive GetResult (V : Type)
  | val (v : V)
  | callToken

/-- Lines 94–100 of the source: dispatch on the attribute found.  A
`Meth`/`Func` is stored in `self._clble` as is; another callable object
has its bound `__call__` stored; in both cases the proxy's bound
`__call__` is returned.  A non-callable value is returned unchanged. -/
def classifyReturn (mb : MagicBind V) (att : PyAttr V) :
    GetResult V × MagicBind V :=
  match att with
  | .func c    => (.callToken, { mb with clble := some c })
  | .callObj c => (.callToken, { mb with clble := some c })
  | .value v   => (.val v, mb)

/-- Attribute access `MagicBind.__getattribute__(item)`: try `getattr(original_obj, item)`;
on `AttributeError` fall back to `super().__getattribute__(item)` (the
proxy's own attributes), whose `AttributeError` propagates if it too
fails.  The attribute found by either branch flows through the same
`classifyReturn` dispatch. -/
def getattribute (mb : MagicBind V) (item : String) :
    Except PyErr (GetResult V × MagicBind V) :=
  match mb.obj.attrs.lookup item with
  | some att => .ok (classifyReturn mb att)
  | none =>
    match mb.own.lookup item with
    | some att => .ok (classifyReturn mb att)
    | none => .error (.attributeError item)

/-- Invocation `MagicBind.__call__(*args, **kwargs)`: read `_kwargs`, `_args` and
`_clble` off the proxy, merge, and invoke `orig_clble` with the merged
arguments, returning its result unchanged.

Call syntax `mb(...)` reaches this method through the *type* slot
(CPython's implicit special-method lookup bypasses instance
`__getattribute__`), so `magicCall` runs on whatever `_clble` currently
holds; only an explicit attribute access (`getattribute`) ever writes that
slot, and a proxy on which no callable attribute was ever accessed has no
`_clble`, making line 105's `super().__getattribute__('_clble')` raise an
`AttributeError`. -/
def magicCall (mb : MagicBind V) (args : List V)
    (kwargs : List (String × V)) : Except PyErr V :=
  match mb.clble with
  | none => .error (.attributeError "_clble")
  | some c =>
    let m := merge_args_better c.spec mb.ovwArgs mb.ovwKwargs args kwargs
    c.run m.ok_args m.ok_kwargs

/-! ## Helper lemmas -/

theorem bindStep_add_kwargs_cases (st : LoopState V) (n : String) :
    (bindStep st n).add_kwargs = st.add_kwargs ∨
    (bindStep st n).add_kwargs = popKey n st.add_kwargs := by
  unfold bindStep
  split
  · left; rfl
  · split
    · right; rfl
    · split
      · left; rfl
      · split
        · left; rfl
        · left; rfl

theorem foldl_bindStep_add_kwargs_sublist (names : List String) :
    ∀ st : LoopState V,
      List.Sublist (names.foldl bindStep st).add_kwargs st.add_kwargs := by
  induction names with
  | nil => intro st; exact List.Sublist.refl _
  | cons n ns ih =>
    intro st
    rw [List.foldl_cons]
    refine List.Sublist.trans (ih (bindStep st n)) ?_
    rcases bindStep_add_kwargs_cases st n with h | h
    · rw [h]
    · rw [h]; exact List.eraseP_sublist _

theorem foldl_bindStep_add_kwargs_mem (names : List String) :
    ∀ (st : LoopState V) (kv : String × V), kv ∈ st.add_kwargs →
      kv.1 ∉ names → kv ∈ (names.foldl bindStep st).add_kwargs := by
  induction names with
  | nil => intro st kv h _; exact h
  | cons n ns ih =>
    intro st kv h hn
    rw [List.foldl_cons]
    refine ih (bindStep st n) kv ?_ (fun hmem => hn (List.mem_cons_of_mem n hmem))
    rcases bindStep_add_kwargs_cases st n with hc | hc <;> rw [hc]
    · exact h
    · refine (List.mem_eraseP_of_neg ?_).mpr h
      simp only [beq_iff_eq]
      intro hk
      exact hn (hk ▸ List.mem_cons_self n ns)

theorem foldl_bindStep_eq_spec (names : List String) :
    ∀ (pk ak : List (String × V)) (p a acc : List V),
      names.foldl bindStep ⟨acc, p, pk, a, ak⟩ =
        ⟨acc ++ (specPriorityResolve names pk ak p a).resolved,
         (specPriorityResolve names pk ak p a).ovSurplus,
         (specPriorityResolve names pk ak p a).overrides,
         (specPriorityResolve names pk ak p a).positional,
         (specPriorityResolve names pk ak p a).named⟩ := by
  induction names with
  | nil =>
    intro pk ak p a acc
    simp [specPriorityResolve]
  | cons n ns ih =>
    intro pk ak p a acc
    rw [List.foldl_cons]
    rcases hpk : pk.lookup n with _ | v
    · rcases hak : ak.lookup n with _ | v
      · cases p with
        | nil =>
          cases a with
          | nil => simp [bindStep, hpk, hak, specPriorityResolve, ih]
          | cons v rest => simp [bindStep, hpk, hak, specPriorityResolve, ih]
        | cons v rest => simp [bindStep, hpk, hak, specPriorityResolve, ih]
      · simp [bindStep, hpk, hak, specPriorityResolve, ih]
    · simp [bindStep, hpk, specPriorityResolve, ih]

theorem merge_eq_specPriorityResolve (spec : ArgSpec) (p a : List V)
    (pk ak : List (String × V)) :
    merge_args_better spec p pk a ak =
      { ok_args := (specPriorityResolve spec.walkedNames pk ak p a).resolved
            ++ (specPriorityResolve spec.walkedNames pk ak p a).ovSurplus
            ++ (specPriorityResolve spec.walkedNames pk ak p a).positional,
        ok_kwargs := if spec.keywords
            then (specPriorityResolve spec.walkedNames pk ak p a).named else [],
        add_kwargs_out := (specPriorityResolve spec.walkedNames pk ak p a).named } := by
  unfold merge_args_better
  rw [foldl_bindStep_eq_spec]
  simp

theorem specPriorityResolve_named_sublist (names : List String) :
    ∀ (pk ak : List (String × V)) (p a : List V),
      List.Sublist (specPriorityResolve names pk ak p a).named ak := by
  induction names with
  | nil => intro pk ak p a; exact List.Sublist.refl _
  | cons n ns ih =>
    intro pk ak p a
    rcases hpk : pk.lookup n with _ | v
    · rcases hak : ak.lookup n with _ | v
      · cases p with
        | nil =>
          cases a with
          | nil => simpa [specPriorityResolve, hpk, hak] using ih pk ak [] []
          | cons v rest =>
            simpa [specPriorityResolve, hpk, hak] using ih pk ak [] rest
        | cons v rest =>
          simpa [specPriorityResolve, hpk, hak] using ih pk ak rest a
      · have := List.Sublist.trans (ih pk (popKey n ak) p a) (List.eraseP_sublist ak)
        simpa [specPriorityResolve, hpk, hak] using this
    · simpa [specPriorityResolve, hpk] using ih (popKey n pk) ak p a

theorem not_mem_keys_popKey (n : String) (l : List (String × V))
    (h : (l.map Prod.fst).Nodup) : n ∉ (popKey n l).map Prod.fst := by
  induction l with
  | nil => simp [popKey]
  | cons kv t ih =>
    rcases kv with ⟨k, w⟩
    simp only [List.map_cons, List.nodup_cons] at h
    by_cases hk : k = n
    · subst hk
      have hpop : popKey k ((k, w) :: t) = t := by
        simp [popKey, List.eraseP_cons]
      rw [hpop]
      exact h.1
    · have hpop : popKey n ((k, w) :: t) = (k, w) :: popKey n t := by
        have hb : (fun kv : String × V => kv.1 == n) (k, w) = false := by
          simp [hk]
        simp [popKey, List.eraseP_cons, hb]
      rw [hpop]
      simp only [List.map_cons, List.mem_cons]
      rintro (rfl | hmem)
      · exact hk rfl
      · exact ih h.2 hmem

theorem lookup_eq_none_of_not_mem_keys (n : String) (l : List (String × V))
    (h : n ∉ l.map Prod.fst) : l.lookup n = none := by
  induction l with
  | nil => rfl
  | cons kv t ih =>
    rcases kv with ⟨k, w⟩
    simp only [List.map_cons, List.mem_cons] at h
    push_neg at h
    have hk : (n == k) = false := by simp [h.1]
    simp [List.lookup, hk, ih h.2]

/-! ## Claims about the Argument Binder -/

/-- C1: the binder walks the declared non-receiver parameter names in
order and resolves each name by the spec's priority — override named
entry, else caller named entry, else next override positional, else next
caller positional, else unresolved — appending the leftover positional
pools afterwards; in particular a caller named argument whose name is the
next walked parameter, not covered by the named overrides, is routed into
that parameter's positional slot (it heads the final positional list)
and, when the caller's named keys are duplicate-free, it does not remain
in the final named mapping. -/
theorem merge_follows_spec_priority {V : Type} :
    (∀ (spec : ArgSpec) (p a : List V) (pk ak : List (String × V)),
      merge_args_better spec p pk a ak =
        { ok_args := (specPriorityResolve spec.walkedNames pk ak p a).resolved
              ++ (specPriorityResolve spec.walkedNames pk ak p a).ovSurplus
              ++ (specPriorityResolve spec.walkedNames pk ak p a).positional,
          ok_kwargs := if spec.keywords
              then (specPriorityResolve spec.walkedNames pk ak p a).named
              else [],
          add_kwargs_out := (specPriorityResolve spec.walkedNames pk ak p a).named }) ∧
    (∀ (spec : ArgSpec) (p a : List V) (pk ak : List (String × V))
        (n : String) (ns : List String) (v : V),
      spec.walkedNames = n :: ns → pk.lookup n = none → ak.lookup n = some v →
      (merge_args_better spec p pk a ak).ok_args.head? = some v ∧
      ((ak.map Prod.fst).Nodup →
        (merge_args_better spec p pk a ak).ok_kwargs.lookup n = none)) := by
  constructor
  · exact fun spec p a pk ak => merge_eq_specPriorityResolve spec p a pk ak
  · intro spec p a pk ak n ns v hw hpk hak
    have hm := merge_eq_specPriorityResolve spec p a pk ak
    have hres : specPriorityResolve spec.walkedNames pk ak p a =
        { specPriorityResolve ns pk (popKey n ak) p a with
          resolved := v :: (specPriorityResolve ns pk (popKey n ak) p a).resolved } := by
      rw [hw]
      simp [specPriorityResolve, hpk, hak]
    constructor
    · rw [hm]
      simp [hres]
    · intro hnd
      rw [hm]
      cases hkw : spec.keywords
      · simp
      · simp only [if_true]
        rw [hres]
      -- the final named pool comes from resolving the remaining names
      -- against the caller named args with n already popped
        have hsub : List.Sublist
            (specPriorityResolve ns pk (popKey n ak) p a).named (popKey n ak) :=
          specPriorityResolve_named_sublist ns pk (popKey n ak) p a
        have hnk : n ∉ (popKey n ak).map Prod.fst := not_mem_keys_popKey n ak hnd
        have hout : n ∉ ((specPriorityResolve ns pk (popKey n ak) p a).named.map
            Prod.fst) := fun hmem => hnk ((hsub.map Prod.fst).subset hmem)
        exact lookup_eq_none_of_not_mem_keys n _ hout

/-- Witness for C1 at a concrete input: target parameter list (y) as a
plain function, override positional surplus (7), caller positional (3),
caller named y = 42: the named argument is routed into the positional
slot and does not stay a keyword argument. -/
theorem merge_follows_spec_priority_witness :
    (merge_args_better (V := Nat) ⟨["y"], false, true, true⟩
        [7] [] [3] [("y", 42)]).ok_args.head? = some 42 ∧
    (merge_args_better (V := Nat) ⟨["y"], false, true, true⟩
        [7] [] [3] [("y", 42)]).ok_kwargs.lookup "y" = none := by
  have h := (merge_follows_spec_priority (V := Nat)).2
    ⟨["y"], false, true, true⟩ [7] [3] [] [("y", 42)] "y" [] 42
    rfl rfl (by decide)
  exact ⟨h.1, h.2 (by decide)⟩

/-- C2 counterexample: the target declares a catch-all for named values
and the override named entry a = 1 is never consumed (there are no
declared parameter names at all), yet the final named mapping is empty —
the binder merges only the caller's leftover named entries, never the
overrides' (line 134 updates from add_kwargs only, despite the comment
above it). -/
theorem merge_drops_override_named_leftovers :
    (merge_args_better (V := Nat) ⟨[], false, true, true⟩
        [] [("a", 1)] [] []).ok_kwargs = [] ∧
    ("a", 1) ∉ (merge_args_better (V := Nat) ⟨[], false, true, true⟩
        [] [("a", 1)] [] []).ok_kwargs := by
  decide

/-- C2 (amended): whenever the target callable declares a catch-all for
named values, the final named mapping is exactly the still-unconsumed
remainder of the caller's named arguments — in particular every caller
named entry whose key is not a walked parameter name is merged; the
overrides' unconsumed named entries are not merged. -/
theorem merge_kwargs_catchall_merges_caller_named {V : Type} (spec : ArgSpec)
    (p a : List V) (pk ak : List (String × V)) (h : spec.keywords = true) :
    (merge_args_better spec p pk a ak).ok_kwargs =
      (merge_args_better spec p pk a ak).add_kwargs_out ∧
    ∀ kv ∈ ak, kv.1 ∉ spec.walkedNames →
      kv ∈ (merge_args_better spec p pk a ak).ok_kwargs := by
  constructor
  · simp [merge_args_better, h]
  · intro kv hkv hn
    simp only [merge_args_better, h, if_true]
    exact foldl_bindStep_add_kwargs_mem spec.walkedNames
      ⟨[], p, pk, a, ak⟩ kv hkv hn

/-- Witness for C2 (amended): with declared parameter x covered by the
overrides, the caller entry w = 9 is merged into the final named
mapping. -/
theorem merge_kwargs_catchall_merges_caller_named_witness :
    (merge_args_better (V := Nat) ⟨["x"], false, true, true⟩
        [] [("x", 1)] [] [("w", 9)]).ok_kwargs =
      (merge_args_better (V := Nat) ⟨["x"], false, true, true⟩
        [] [("x", 1)] [] [("w", 9)]).add_kwargs_out ∧
    ("w", 9) ∈ (merge_args_better (V := Nat) ⟨["x"], false, true, true⟩
        [] [("x", 1)] [] [("w", 9)]).ok_kwargs := by
  have h := merge_kwargs_catchall_merges_caller_named (V := Nat)
    ⟨["x"], false, true, true⟩ [] [] [("x", 1)] [("w", 9)] rfl
  exact ⟨h.1, h.2 ("w", 9) (by decide) (by decide)⟩

/-- C3 counterexample: resolving parameter x from the caller's named
argument x = 5 pops it from the caller's own dictionary (the source never
copies add_kwargs), so after the call that container differs from the
original, and a second invocation handed the same — now emptied —
container yields a different positional result. -/
theorem merge_mutates_caller_named_args :
    (merge_args_better (V := Nat) ⟨["x"], false, false, true⟩
        [] [] [] [("x", 5)]).add_kwargs_out ≠ [("x", 5)] ∧
    (merge_args_better (V := Nat) ⟨["x"], false, false, true⟩ [] [] []
        (merge_args_better (V := Nat) ⟨["x"], false, false, true⟩
          [] [] [] [("x", 5)]).add_kwargs_out).ok_args ≠
      (merge_args_better (V := Nat) ⟨["x"], false, false, true⟩
        [] [] [] [("x", 5)]).ok_args := by
  decide

/-- C3 (amended): the binder works on private copies of the overrides and
of the caller's positional arguments, but consumes entries of the
caller's named-argument mapping in place: its post-call state is a
subsequence of the original (entries are only removed, never added or
reordered). -/
theorem merge_consumes_caller_named_in_place {V : Type} (spec : ArgSpec)
    (p a : List V) (pk ak : List (String × V)) :
    List.Sublist (merge_args_better spec p pk a ak).add_kwargs_out ak :=
  foldl_bindStep_add_kwargs_sublist spec.walkedNames ⟨[], p, pk, a, ak⟩

/-- C7: a target with declared parameters (x, y, *args, **kwargs) — here
the bound method of the doctest, whose receiver is skipped — with
override x = 10, called with positionals (20, 30, 40) and named z = 50,
w = 60, resolves to positionals (10, 20, 30, 40) and named
z = 50, w = 60. -/
theorem merge_args_kwargs_example :
    (merge_args_better (V := Nat) ⟨["self", "x", "y"], true, true, false⟩
        [] [("x", 10)] [20, 30, 40] [("z", 50), ("w", 60)]).ok_args
      = [10, 20, 30, 40] ∧
    (merge_args_better (V := Nat) ⟨["self", "x", "y"], true, true, false⟩
        [] [("x", 10)] [20, 30, 40] [("z", 50), ("w", 60)]).ok_kwargs
      = [("z", 50), ("w", 60)] := by
  decide

/-- C10: when the target callable declares no catch-all for named values,
the final named mapping is empty — every unconsumed caller named argument
is silently discarded, the binder raises nothing, and through the proxy
the target callable is invoked with an empty named mapping. -/
theorem merge_no_catchall_drops_caller_named {V : Type} :
    (∀ (spec : ArgSpec) (p a : List V) (pk ak : List (String × V)),
      spec.keywords = false → (merge_args_better spec p pk a ak).ok_kwargs = []) ∧
    (∀ (mb : MagicBind V) (c : PyCallable V) (args : List V)
        (kwargs : List (String × V)),
      mb.clble = some c → c.spec.keywords = false →
      magicCall mb args kwargs =
        c.run (merge_args_better c.spec mb.ovwArgs mb.ovwKwargs
          args kwargs).ok_args []) := by
  have h1 : ∀ (spec : ArgSpec) (p a : List V) (pk ak : List (String × V)),
      spec.keywords = false → (merge_args_better spec p pk a ak).ok_kwargs = [] := by
    intro spec p a pk ak h
    simp [merge_args_better, h]
  refine ⟨h1, ?_⟩
  intro mb c args kwargs hc hkw
  simp only [magicCall, hc]
  rw [h1 c.spec mb.ovwArgs args mb.ovwKwargs kwargs hkw]

/-- Witness for C10: a stray caller named argument vanishes both from the
binder's output and from what the proxy hands the target. -/
theorem merge_no_catchall_drops_caller_named_witness :
    (merge_args_better (V := Nat) ⟨["x"], false, false, true⟩
        [] [] [] [("stray", 1)]).ok_kwargs = [] ∧
    magicCall (⟨⟨[]⟩, [], [],
        some ⟨⟨["x"], false, false, true⟩,
          fun pos named => .ok (pos.length + named.length)⟩, []⟩ : MagicBind Nat)
        [4] [("stray", 1)] =
      (⟨⟨["x"], false, false, true⟩,
          fun pos named => .ok (pos.length + named.length)⟩ : PyCallable Nat).run
        (merge_args_better (V := Nat) ⟨["x"], false, false, true⟩
          [] [] [4] [("stray", 1)]).ok_args [] :=
  ⟨(merge_no_catchall_drops_caller_named (V := Nat)).1
      ⟨["x"], false, false, true⟩ [] [] [] [("stray", 1)] rfl,
   (merge_no_catchall_drops_caller_named (V := Nat)).2 _ _ [4] [("stray", 1)] rfl rfl⟩

/-! ## Claims about the Forwarding Proxy -/

/-- C4: accessing a callable attribute of the target (a bound method or
function, or an object with a call operator, whose bound call operator is
stored instead) returns the proxy's call token with that callable stored
in the _clble slot; invoking the proxy in that state runs the binder on
the callable's signature, the proxy's fixed overrides and the call's
actual arguments, then invokes that same callable and returns its result
unchanged. -/
theorem getattr_callable_binds_and_forwards {V : Type} (mb : MagicBind V)
    (item : String) (att : PyAttr V) (c : PyCallable V) (args : List V)
    (kwargs : List (String × V))
    (hfind : mb.obj.attrs.lookup item = some att)
    (hc : att = PyAttr.func c ∨ att = PyAttr.callObj c) :
    getattribute mb item = .ok (.callToken, { mb with clble := some c }) ∧
    magicCall { mb with clble := some c } args kwargs =
      c.run (merge_args_better c.spec mb.ovwArgs mb.ovwKwargs args kwargs).ok_args
            (merge_args_better c.spec mb.ovwArgs mb.ovwKwargs args kwargs).ok_kwargs := by
  rcases hc with rfl | rfl
  · exact ⟨by simp [getattribute, hfind, classifyReturn], by simp [magicCall]⟩
  · exact ⟨by simp [getattribute, hfind, classifyReturn], by simp [magicCall]⟩

/-- A sample target method for the witnesses: sums its positional
arguments; declared as a bound method (x, y) with receiver self. -/
def sumCallable : PyCallable Nat :=
  ⟨⟨["self", "x", "y"], false, false, false⟩, fun pos _ => .ok (pos.foldl (· + ·) 0)⟩

/-- A sample target object for the witnesses: a bound method at "plus"
and a plain value at "a". -/
def demoTarget : PyObj Nat :=
  ⟨[("plus", PyAttr.func sumCallable), ("a", PyAttr.value 100)]⟩

/-- Witness for C4: accessing "plus" on a proxy with override x = 10 and
invoking it with 20 forwards the merged call to the stored callable. -/
theorem getattr_callable_binds_and_forwards_witness :
    getattribute (mkMagicBind demoTarget [] [("x", 10)]) "plus" =
      .ok (.callToken,
        { mkMagicBind demoTarget [] [("x", 10)] with clble := some sumCallable }) ∧
    magicCall { mkMagicBind demoTarget [] [("x", 10)] with clble := some sumCallable }
        [20] [] =
      sumCallable.run
        (merge_args_better sumCallable.spec [] [("x", 10)] [20] []).ok_args
        (merge_args_better sumCallable.spec [] [("x", 10)] [20] []).ok_kwargs :=
  getattr_callable_binds_and_forwards (mkMagicBind demoTarget [] [("x", 10)])
    "plus" (PyAttr.func sumCallable) sumCallable [20] [] rfl (Or.inl rfl)

/-- The call operator the target of the C5 scenario defines, with the
signature of the doctest's Test.__call__(self, x, y, z=3). -/
def callOpOfTarget : PyCallable Nat :=
  ⟨⟨["self", "x", "y", "z"], false, false, false⟩, fun pos _ => .ok (pos.foldl (· + ·) 0)⟩

/-- A target object that defines its own call operator. -/
def callableTarget : PyObj Nat :=
  ⟨[("__call__", PyAttr.func callOpOfTarget)]⟩

/-- C5 evaluated at the failing input: on a freshly constructed proxy
over a target that defines its own call operator, call syntax reaches
MagicBind.__call__ directly (implicit special-method lookup bypasses
__getattribute__), the _clble slot was never written, and the call raises
AttributeError for _clble instead of resolving against the target's call
operator. -/
theorem fresh_proxy_call_raises_attribute_error :
    magicCall (mkMagicBind callableTarget [] [("x", 10)]) [1, 2] [] =
      .error (.attributeError "_clble") := rfl

/-- C6: when the target callable, invoked with the resolved arguments,
raises an error, MagicBind.__call__ returns exactly that error — neither
the binder (a total function) nor the proxy catches, translates or
swallows it. -/
theorem target_errors_propagate_unchanged {V : Type} (mb : MagicBind V)
    (c : PyCallable V) (args : List V) (kwargs : List (String × V))
    (e : PyErr) (hc : mb.clble = some c)
    (herr : c.run
        (merge_args_better c.spec mb.ovwArgs mb.ovwKwargs args kwargs).ok_args
        (merge_args_better c.spec mb.ovwArgs mb.ovwKwargs args kwargs).ok_kwargs
      = .error e) :
    magicCall mb args kwargs = .error e := by
  simpa [magicCall, hc] using herr

/-- A callable that always raises, carrying the target's native arity
message. -/
def failingCallable : PyCallable Nat :=
  ⟨⟨["x", "y"], false, false, true⟩,
    fun _ _ => .error (.typeError "two_positional() takes exactly 2 arguments")⟩

/-- Witness for C6: the target's TypeError reaches the proxy's caller
verbatim. -/
theorem target_errors_propagate_unchanged_witness :
    magicCall (⟨⟨[]⟩, [], [], some failingCallable, []⟩ : MagicBind Nat) [1] [] =
      .error (.typeError "two_positional() takes exactly 2 arguments") :=
  target_errors_propagate_unchanged
    (⟨⟨[]⟩, [], [], some failingCallable, []⟩ : MagicBind Nat)
    failingCallable [1] [] (.typeError "two_positional() takes exactly 2 arguments")
    rfl rfl

/-- C8: accessing an attribute the target exposes as a non-callable value
returns exactly that value, leaves the proxy untouched, and involves the
binder in no way. -/
theorem noncallable_attr_passthrough {V : Type} (mb : MagicBind V)
    (item : String) (v : V)
    (h : mb.obj.attrs.lookup item = some (PyAttr.value v)) :
    getattribute mb item = .ok (.val v, mb) := by
  simp [getattribute, h, classifyReturn]

/-- Witness for C8: the plain attribute a = 100 passes through. -/
theorem noncallable_attr_passthrough_witness :
    getattribute (mkMagicBind demoTarget [] [("x", 10)]) "a" =
      .ok (.val 100, mkMagicBind demoTarget [] [("x", 10)]) :=
  noncallable_attr_passthrough (mkMagicBind demoTarget [] [("x", 10)]) "a" 100 rfl

/-- C9: attribute access consults the target first (its attribute is
dispatched even when the proxy also has one of that name), falls back to
the proxy's own attributes when the target lacks the name, and raises
AttributeError for the requested name when both lack it. -/
theorem attribute_resolution_order {V : Type} (mb : MagicBind V)
    (item : String) :
    (∀ att, mb.obj.attrs.lookup item = some att →
      getattribute mb item = .ok (classifyReturn mb att)) ∧
    (mb.obj.attrs.lookup item = none →
      ∀ att, mb.own.lookup item = some att →
        getattribute mb item = .ok (classifyReturn mb att)) ∧
    (mb.obj.attrs.lookup item = none → mb.own.lookup item = none →
      getattribute mb item = .error (.attributeError item)) := by
  refine ⟨?_, ?_, ?_⟩
  · intro att h
    simp [getattribute, h]
  · intro h1 att h2
    simp [getattribute, h1, h2]
  · intro h1 h2
    simp [getattribute, h1, h2]

/-- Witness for C9, one concrete instance per branch: a target attribute,
a proxy-only attribute, and a name neither has. -/
theorem attribute_resolution_order_witness :
    getattribute (mkMagicBind demoTarget [] [("x", 10)]) "a" =
      .ok (classifyReturn (mkMagicBind demoTarget [] [("x", 10)])
        (PyAttr.value 100)) ∧
    getattribute (⟨⟨[]⟩, [], [], none, [("shadow", PyAttr.value 7)]⟩ : MagicBind Nat)
        "shadow" =
      .ok (classifyReturn
        (⟨⟨[]⟩, [], [], none, [("shadow", PyAttr.value 7)]⟩ : MagicBind Nat)
        (PyAttr.value 7)) ∧
    getattribute (mkMagicBind demoTarget [] [("x", 10)]) "zap" =
      .error (.attributeError "zap") :=
  ⟨(attribute_resolution_order (mkMagicBind demoTarget [] [("x", 10)]) "a").1
      (PyAttr.value 100) rfl,
   (attribute_resolution_order
      (⟨⟨[]⟩, [], [], none, [("shadow", PyAttr.value 7)]⟩ : MagicBind Nat)
      "shadow").2.1 rfl (PyAttr.value 7) rfl,
   (attribute_resolution_order (mkMagicBind demoTarget [] [("x", 10)]) "zap").2.2
      rfl rfl⟩

end MagicBindModel

